import Mathlib

/-!
Verification of the broadcaster media pipeline.

This development shallowly embeds the pure cores of the broadcaster
crates and proves (or refutes) the specified laws about them:

* `Broadcaster.Nal` — Annex-B NAL parsing, AVCC packing and the AVC
  decoder configuration record (crate broadcaster-transport, nal.rs).
* `Broadcaster.Conn` — the reconnect backoff policy (connection.rs).
* `Broadcaster.Mix` — the audio mixer soft clip and volume clamping
  (crate broadcaster-audio, mixer.rs).
* `Broadcaster.Aac` — the AAC encoder buffering logic (crate
  broadcaster-encoder, aac.rs), with the external fdk-aac core
  abstracted as a state-passing parameter.
* `Broadcaster.Rtmp` — the RTMP data plane and statistics counters
  (rtmp.rs).
* `Broadcaster.Engine` — the orchestrator state machine and the audio
  branch of the stream loop (crate broadcaster-engine, orchestrator.rs).
* `Broadcaster.FramePool` — the BGRA to NV12 converter (crate
  broadcaster-capture, wgc/frame_pool.rs).

Byte strings are `List Nat` (each element a byte value), machine
integer casts are explicit `% 2 ^ w`, fallible operations (Rust
indexing panics) return `Option`, and `f32` sample values are modelled
as rationals where control flow is what matters, and as reals where
the property itself is analytic (the soft clip).
-/

namespace Broadcaster

namespace Nal

/-- NAL unit types relevant for H.264, from nal.rs. -/
inductive NalUnitType where
  | nonIdrSlice
  | idrSlice
  | sei
  | sps
  | pps
  | aud
  | other
  deriving DecidableEq, Repr

/-- Conversion from the NAL header byte: the type is the low 5 bits. -/
def NalUnitType.ofByte (b : Nat) : NalUnitType :=
  match b % 32 with
  | 1 => .nonIdrSlice
  | 5 => .idrSlice
  | 6 => .sei
  | 7 => .sps
  | 8 => .pps
  | 9 => .aud
  | _ => .other

/-- A single NAL unit: type plus payload (start code excluded). -/
structure NalUnit where
  nal_type : NalUnitType
  data : List Nat
  deriving DecidableEq, Repr

/-- Big-endian bytes of `n as u32` (the 4-byte AVCC length, `put_u32`). -/
def u32be (n : Nat) : List Nat :=
  [n % 4294967296 / 16777216, n / 65536 % 256, n / 256 % 256, n % 256]

/-- Big-endian bytes of `n as u16` (`put_u16`). -/
def u16be (n : Nat) : List Nat :=
  [n / 256 % 256, n % 256]

/-- The inner scan of `parse_annex_b`: does a start code begin at the head
of the remaining suffix?  Mirrors the condition of the `while j + 2 < len`
loop: a 3-byte code needs 3 remaining bytes, a 4-byte code needs 4. -/
def innerTrig : List Nat → Bool
  | a :: b :: c :: d :: _ => a == 0 && b == 0 && (c == 1 || (c == 0 && d == 1))
  | [a, b, c] => a == 0 && b == 0 && c == 1
  | _ => false

/-- The inner loop of `parse_annex_b`: split the suffix after a start code
into the NAL payload and the remainder beginning at the next start code
(or run to end-of-input when none is found or fewer than 3 bytes remain). -/
def findEnd : List Nat → List Nat × List Nat
  | a :: b :: c :: rest =>
      if innerTrig (a :: b :: c :: rest) then ([], a :: b :: c :: rest)
      else
        let pr := findEnd (b :: c :: rest)
        (a :: pr.1, pr.2)
  | s => (s, [])

/-- The outer scan of `parse_annex_b`: the length of a start code at the
head of the suffix, if one is recognized there.  The source condition
`i + 3 < len` requires 4 available bytes even for the 3-byte code. -/
def startCodeLen : List Nat → Option Nat
  | a :: b :: c :: d :: _ =>
      if a == 0 && b == 0 then
        if c == 1 then some 3
        else if c == 0 && d == 1 then some 4
        else none
      else none
  | _ => none

theorem findEnd_snd_length (s : List Nat) : (findEnd s).2.length ≤ s.length := by
  induction s with
  | nil => simp [findEnd]
  | cons a t ih =>
      match t with
      | [] => simp [findEnd]
      | [b] => simp [findEnd]
      | b :: c :: rest =>
          rw [findEnd]
          split
          · simp
          · simpa [findEnd] using Nat.le_succ_of_le ih

theorem startCodeLen_bounds {s : List Nat} {scl : Nat}
    (h : startCodeLen s = some scl) : 3 ≤ scl ∧ 4 ≤ s.length := by
  match s with
  | [] => simp [startCodeLen] at h
  | [a] => simp [startCodeLen] at h
  | [a, b] => simp [startCodeLen] at h
  | [a, b, c] => simp [startCodeLen] at h
  | a :: b :: c :: d :: rest =>
      rw [startCodeLen] at h
      split at h
      · split at h
        · cases h; constructor <;> simp
        · split at h
          · cases h; constructor <;> simp
          · cases h
      · cases h

/-- The main loop of `parse_annex_b`, operating on the suffix at the scan
index: skip until a start code triggers, cut the payload with `findEnd`,
keep it when nonempty, continue at the remainder. -/
def parseLoop (s : List Nat) : List NalUnit :=
  match hsc : startCodeLen s with
  | some scl =>
      let pr := findEnd (s.drop scl)
      (if pr.1.isEmpty then [] else [⟨NalUnitType.ofByte (pr.1.headD 0), pr.1⟩]) ++
        parseLoop pr.2
  | none =>
      match s with
      | [] => []
      | _ :: rest => parseLoop rest
termination_by s.length
decreasing_by
  · have h1 := findEnd_snd_length (s.drop scl)
    have h2 := startCodeLen_bounds hsc
    simp only [List.length_drop] at h1
    omega
  · simp only [List.length_cons]
    omega

/-- Parse an Annex B byte stream into individual NAL units (nal.rs,
`parse_annex_b`). -/
def parse_annex_b (data : List Nat) : List NalUnit :=
  parseLoop data

/-- Convert NAL units to AVCC format with 4-byte big-endian length
prefixes (nal.rs, `nals_to_avcc`). -/
def nals_to_avcc (nals : List NalUnit) : List Nat :=
  nals.foldl (fun buf nal => buf ++ u32be nal.data.length ++ nal.data) []

/-- Build an AVC Decoder Configuration Record from SPS and PPS (nal.rs,
`build_avc_decoder_config`).  Fails when the SPS is shorter than 4 bytes. -/
def build_avc_decoder_config (sps pps : List Nat) : Option (List Nat) :=
  if sps.length < 4 then none
  else
    some ([0x01, sps.getD 1 0, sps.getD 2 0, sps.getD 3 0, 0xFF, 0xE1] ++
      u16be sps.length ++ sps ++ [0x01] ++ u16be pps.length ++ pps)

/-- C3: for an SPS of at least 4 bytes the configuration record is built
with the documented layout, totalling 11 + sps.len + pps.len bytes, and a
shorter SPS fails. -/
theorem avc_decoder_config_layout (sps pps : List Nat) :
    (4 ≤ sps.length →
      build_avc_decoder_config sps pps =
        some ([0x01, sps.getD 1 0, sps.getD 2 0, sps.getD 3 0, 0xFF, 0xE1] ++
          u16be sps.length ++ sps ++ [0x01] ++ u16be pps.length ++ pps) ∧
      ∀ out, build_avc_decoder_config sps pps = some out →
        out.length = 11 + sps.length + pps.length) ∧
    (sps.length < 4 → build_avc_decoder_config sps pps = none) := by
  refine ⟨fun h4 => ⟨?_, ?_⟩, fun hlt => ?_⟩
  · rw [build_avc_decoder_config, if_neg (by omega)]
  · intro out hout
    rw [build_avc_decoder_config, if_neg (by omega)] at hout
    cases hout
    simp [u16be]
    omega
  · rw [build_avc_decoder_config, if_pos hlt]

/-- Witness for C3 at a concrete SPS and PPS. -/
theorem avc_decoder_config_layout_witness :
    (4 : Nat) ≤ 5 ∧
      build_avc_decoder_config [103, 66, 0, 30, 171] [104, 206] =
        some [1, 66, 0, 30, 255, 225, 0, 5, 103, 66, 0, 30, 171, 1, 0, 2, 104, 206] := by
  refine ⟨by norm_num, ?_⟩
  rw [((avc_decoder_config_layout [103, 66, 0, 30, 171] [104, 206]).1 (by norm_num)).1]
  decide

/-- Does a byte string contain the subsequence 0, 0, 1 (the core of both
start codes)?  Payloads free of it are parsed back unchanged. -/
def has001 : List Nat → Bool
  | a :: b :: c :: rest => (a == 0 && b == 0 && c == 1) || has001 (b :: c :: rest)
  | _ => false

theorem has001_cons_false {x : Nat} {s : List Nat}
    (h : has001 (x :: s) = false) : has001 s = false := by
  match s with
  | [] => rfl
  | [b] => rfl
  | b :: c :: rest =>
      rw [has001, Bool.or_eq_false_iff] at h
      exact h.2

/-- Start-code packing with 4-byte start codes, the inverse direction of
`parse_annex_b`. -/
def packAnnexB (ps : List (List Nat)) : List Nat :=
  (ps.map fun p => 0 :: 0 :: 0 :: 1 :: p).flatten

theorem parseLoop_nil : parseLoop [] = [] := by
  rw [parseLoop.eq_def]
  simp [startCodeLen]

theorem parseLoop_skip {x : Nat} {s : List Nat}
    (h : startCodeLen (x :: s) = none) : parseLoop (x :: s) = parseLoop s := by
  rw [parseLoop.eq_def]
  split
  · simp_all
  · rfl

theorem parseLoop_start {s : List Nat} {scl : Nat}
    (h : startCodeLen s = some scl) :
    parseLoop s =
      (if (findEnd (s.drop scl)).1.isEmpty then []
       else [⟨NalUnitType.ofByte ((findEnd (s.drop scl)).1.headD 0), (findEnd (s.drop scl)).1⟩]) ++
        parseLoop (findEnd (s.drop scl)).2 := by
  rw [parseLoop.eq_def]
  split
  · simp_all
  · simp_all

theorem innerTrig_eq_false {a b c d : Nat} {rest : List Nat}
    (h1 : ¬(a = 0 ∧ b = 0 ∧ c = 1)) (h2 : ¬(b = 0 ∧ c = 0 ∧ d = 1)) :
    innerTrig (a :: b :: c :: d :: rest) = false := by
  rw [Bool.eq_false_iff]
  intro htrig
  rw [innerTrig] at htrig
  simp only [Bool.and_eq_true, Bool.or_eq_true, beq_iff_eq] at htrig
  obtain ⟨⟨ha, hb⟩, hcd⟩ := htrig
  rcases hcd with hc | ⟨hc, hd⟩
  · exact h1 ⟨ha, hb, hc⟩
  · exact h2 ⟨hb, hc, hd⟩

theorem has001_head_false {a b c : Nat} {rest : List Nat}
    (h : has001 (a :: b :: c :: rest) = false) : ¬(a = 0 ∧ b = 0 ∧ c = 1) := by
  rw [has001, Bool.or_eq_false_iff] at h
  intro hx
  rcases hx with ⟨ha, hb, hc⟩
  subst ha; subst hb; subst hc
  simp at h

/-- A payload free of 0,0,1 followed by a 4-byte start code is cut exactly
at the start code by the inner scan. -/
theorem findEnd_pack (t : List Nat) :
    ∀ p : List Nat, has001 p = false →
      findEnd (p ++ 0 :: 0 :: 0 :: 1 :: t) = (p, 0 :: 0 :: 0 :: 1 :: t) := by
  intro p
  induction p with
  | nil => intro _; simp [findEnd, innerTrig]
  | cons x q ih =>
      intro h
      have hq : has001 q = false := has001_cons_false h
      match q with
      | [] => simp [findEnd, innerTrig]
      | [y] => simp [findEnd, innerTrig]
      | y :: z :: q' =>
          have h1 : ¬(x = 0 ∧ y = 0 ∧ z = 1) := has001_head_false h
          have htrig :
              innerTrig (x :: y :: z :: (q' ++ 0 :: 0 :: 0 :: 1 :: t)) = false := by
            cases q' with
            | nil =>
                exact innerTrig_eq_false h1 (by rintro ⟨_, _, hd⟩; omega)
            | cons d q'' =>
                have h2 : ¬(y = 0 ∧ z = 0 ∧ d = 1) := has001_head_false hq
                exact innerTrig_eq_false h1 h2
          have key := ih hq
          simp only [List.cons_append] at key ⊢
          rw [findEnd, if_neg (by simp [htrig])]
          simp [key]

/-- A payload free of 0,0,1 with nothing after it runs to end-of-input. -/
theorem findEnd_clean : ∀ p : List Nat, has001 p = false → findEnd p = (p, []) := by
  intro p
  induction p with
  | nil => intro _; simp [findEnd]
  | cons x q ih =>
      intro h
      have hq : has001 q = false := has001_cons_false h
      match q with
      | [] => simp [findEnd]
      | [y] => simp [findEnd]
      | y :: z :: q' =>
          have h1 : ¬(x = 0 ∧ y = 0 ∧ z = 1) := has001_head_false h
          have htrig : innerTrig (x :: y :: z :: q') = false := by
            cases q' with
            | nil =>
                rw [Bool.eq_false_iff]
                intro htrig
                rw [innerTrig] at htrig
                simp only [Bool.and_eq_true, beq_iff_eq] at htrig
                exact h1 ⟨htrig.1.1, htrig.1.2, htrig.2⟩
            | cons d q'' =>
                have h2 : ¬(y = 0 ∧ z = 0 ∧ d = 1) := has001_head_false hq
                exact innerTrig_eq_false h1 h2
          have key := ih hq
          rw [findEnd, if_neg (by simp [htrig])]
          simp [key]

theorem parseLoop_data_ne_nil_aux :
    ∀ (n : Nat) (s : List Nat), s.length ≤ n → ∀ nal ∈ parseLoop s, nal.data ≠ [] := by
  intro n
  induction n with
  | zero =>
      intro s hs
      have : s = [] := List.length_eq_zero.mp (Nat.le_zero.mp hs)
      subst this
      simp [parseLoop_nil]
  | succ n ih =>
      intro s hs
      match hsc : startCodeLen s with
      | some scl =>
          rw [parseLoop_start hsc]
          intro nal hmem
          rcases List.mem_append.mp hmem with hl | hr
          · split at hl
            · simp at hl
            · rename_i hne
              simp only [List.mem_singleton] at hl
              subst hl
              simpa [List.isEmpty_iff] using hne
          · have hb := startCodeLen_bounds hsc
            have hlen := findEnd_snd_length (s.drop scl)
            simp only [List.length_drop] at hlen
            exact ih (findEnd (s.drop scl)).2 (by omega) nal hr
      | none =>
          match s with
          | [] => simp [parseLoop_nil]
          | x :: rest =>
              rw [parseLoop_skip hsc]
              exact ih rest (by simpa using Nat.le_of_succ_le_succ hs)

theorem parseLoop_data_ne_nil (s : List Nat) :
    ∀ nal ∈ parseLoop s, nal.data ≠ [] :=
  parseLoop_data_ne_nil_aux s.length s le_rfl

theorem nals_to_avcc_foldl (l : List NalUnit) :
    ∀ acc : List Nat,
      l.foldl (fun buf nal => buf ++ u32be nal.data.length ++ nal.data) acc =
        acc ++ (l.map fun nal => u32be nal.data.length ++ nal.data).flatten := by
  induction l with
  | nil => intro acc; simp
  | cons nal l ih =>
      intro acc
      rw [List.foldl_cons, ih]
      simp [List.append_assoc]

/-- C2: the AVCC packing law, the nonempty-payload invariant of the
parser, skipping of bytes before the first recognized start code, and the
round trip through 4-byte start-code packing for payloads free of the
start-code pattern. -/
theorem annexb_avcc_roundtrip :
    (∀ nals : List NalUnit,
        nals_to_avcc nals =
          (nals.map fun nal => u32be nal.data.length ++ nal.data).flatten) ∧
    (∀ b : List Nat, ∀ nal ∈ parse_annex_b b, nal.data ≠ []) ∧
    (∀ (b : List Nat) (k : Nat), (∀ i < k, startCodeLen (b.drop i) = none) →
        parse_annex_b b = parse_annex_b (b.drop k)) ∧
    (∀ ps : List (List Nat), (∀ p ∈ ps, p ≠ [] ∧ has001 p = false) →
        (parse_annex_b (packAnnexB ps)).map NalUnit.data = ps) := by
  refine ⟨?_, ?_, ?_, ?_⟩
  · intro nals
    exact nals_to_avcc_foldl nals []
  · intro b
    exact parseLoop_data_ne_nil b
  · intro b k
    induction k generalizing b with
    | zero => intro _; rfl
    | succ k ih =>
        intro h
        cases b with
        | nil => simp
        | cons x rest =>
            have h0 : startCodeLen (x :: rest) = none := by
              simpa using h 0 (Nat.succ_pos k)
            have hrest : ∀ i < k, startCodeLen (rest.drop i) = none := by
              intro i hi
              simpa using h (i + 1) (by omega)
            calc parse_annex_b (x :: rest) = parse_annex_b rest := parseLoop_skip h0
              _ = parse_annex_b (rest.drop k) := ih rest hrest
              _ = parse_annex_b ((x :: rest).drop (k + 1)) := by simp
  · intro ps
    induction ps with
    | nil =>
        intro _
        simp [packAnnexB, parse_annex_b, parseLoop_nil]
    | cons p ps ih =>
        intro h
        obtain ⟨hp, hclean⟩ := h p (List.mem_cons_self p ps)
        have hsc : startCodeLen (packAnnexB (p :: ps)) = some 4 := by
          simp [packAnnexB, startCodeLen]
        have hdrop : (packAnnexB (p :: ps)).drop 4 = p ++ packAnnexB ps := by
          simp [packAnnexB]
        rw [parse_annex_b, parseLoop_start hsc, hdrop]
        cases ps with
        | nil =>
            have hfe : findEnd (p ++ packAnnexB []) = (p, []) := by
              simpa [packAnnexB] using findEnd_clean p hclean
            rw [hfe]
            simp [List.isEmpty_iff, hp, parseLoop_nil]
        | cons q ps' =>
            have hsep : packAnnexB (q :: ps') =
                0 :: 0 :: 0 :: 1 :: (q ++ packAnnexB ps') := by
              simp [packAnnexB]
            have hfe : findEnd (p ++ packAnnexB (q :: ps')) =
                (p, packAnnexB (q :: ps')) := by
              rw [hsep]
              exact findEnd_pack (q ++ packAnnexB ps') p hclean
            rw [hfe]
            have ihq := ih fun r hr => h r (List.mem_cons_of_mem p hr)
            simp only [List.isEmpty_iff, hp, if_neg hp, List.map_append,
              List.map_cons, List.map_nil]
            rw [parse_annex_b] at ihq
            simp [ihq]

/-- Witness for C2: the AVCC law, prefix skipping, the round trip, and the
nonempty-payload invariant at concrete inputs. -/
theorem annexb_avcc_roundtrip_witness :
    nals_to_avcc [⟨NalUnitType.idrSlice, [101, 136, 132]⟩] =
        [0, 0, 0, 3, 101, 136, 132] ∧
    parse_annex_b [9, 9, 0, 0, 1, 5] = parse_annex_b [0, 0, 1, 5] ∧
    (parse_annex_b (packAnnexB [[103, 66], [104]])).map NalUnit.data =
        [[103, 66], [104]] ∧
    ([103, 66] : List Nat) ≠ [] := by
  obtain ⟨h1, h2, h3, h4⟩ := annexb_avcc_roundtrip
  have hrt := h4 [[103, 66], [104]] (by decide)
  refine ⟨?_, ?_, hrt, ?_⟩
  · rw [h1]; decide
  · simpa using h3 [9, 9, 0, 0, 1, 5] 2 (by decide)
  · have hmem : ∀ nal ∈ parse_annex_b (packAnnexB [[103, 66], [104]]),
        nal.data ≠ [] := h2 (packAnnexB [[103, 66], [104]])
    cases hparse : parse_annex_b (packAnnexB [[103, 66], [104]]) with
    | nil => rw [hparse] at hrt; simp at hrt
    | cons n rest =>
        rw [hparse] at hrt
        simp only [List.map_cons] at hrt
        have : n.data = [103, 66] := (List.cons_eq_cons.mp hrt).1
        rw [← this]
        exact hmem n (by rw [hparse]; exact List.mem_cons_self n rest)

end Nal

namespace Conn

/-- Greatest representable `std::time::Duration`, in nanoseconds
(`u64::MAX` seconds plus 999 999 999 nanoseconds). -/
def durationMaxNanos : Nat := (2 ^ 64 - 1) * 1000000000 + 999999999

/-- Reconnection policy configuration (connection.rs); durations are in
nanoseconds, `max_attempts` is a `u32`. -/
structure ReconnectPolicy where
  max_attempts : Nat
  base_delay_ns : Nat
  max_delay_ns : Nat
  deriving DecidableEq, Repr

/-- The `Default` instance: `MAX_RECONNECT_ATTEMPTS = 3`, base delay
`BASE_RECONNECT_DELAY_MS = 1000` ms, maximum delay 10 s. -/
def ReconnectPolicy.defaultPolicy : ReconnectPolicy :=
  { max_attempts := 3
    base_delay_ns := 1000 * 1000000
    max_delay_ns := 10 * 1000000000 }

/-- Delay for a given attempt number (connection.rs).  The multiplier is
`2u64.pow(attempt.saturating_sub(1))` (wrapping at 2^64), then cast with
`as u32` (truncation mod 2^32); the base delay is `saturating_mul`-ed by
it (capped at `Duration::MAX`) and finally capped at `max_delay`. -/
def ReconnectPolicy.delay_for_attempt (p : ReconnectPolicy) (attempt : Nat) : Nat :=
  let multiplier := 2 ^ (attempt - 1) % 2 ^ 64
  let m32 := multiplier % 2 ^ 32
  let delay := min (p.base_delay_ns * m32) durationMaxNanos
  min delay p.max_delay_ns

/-- Check whether more attempts are allowed (connection.rs). -/
def ReconnectPolicy.should_retry (p : ReconnectPolicy) (attempt : Nat) : Bool :=
  attempt < p.max_attempts

/-- C7 (amended): with the default policy, for attempts 1..32 the delay is
`min(base * 2^(attempt-1), max_delay)`, and `should_retry n` holds exactly
when `n < max_attempts = 3`.  For attempts at 33 and beyond the `as u32`
truncation of the multiplier zeroes the delay, so the unrestricted formula
fails (see the counterexample). -/
theorem delay_for_attempt_spec :
    (∀ n : Nat, 1 ≤ n → n ≤ 32 →
      ReconnectPolicy.defaultPolicy.delay_for_attempt n =
        min (1000000000 * 2 ^ (n - 1)) 10000000000) ∧
    (∀ n : Nat, ReconnectPolicy.defaultPolicy.should_retry n = true ↔ n < 3) := by
  constructor
  · intro n h1 h32
    have hpow : 2 ^ (n - 1) < 2 ^ 32 :=
      Nat.pow_lt_pow_right (by norm_num) (by omega)
    have hmod64 : 2 ^ (n - 1) % 2 ^ 64 = 2 ^ (n - 1) :=
      Nat.mod_eq_of_lt (lt_trans hpow (by norm_num))
    have hmod32 : 2 ^ (n - 1) % 2 ^ 32 = 2 ^ (n - 1) := Nat.mod_eq_of_lt hpow
    have hsat : 1000000000 * 2 ^ (n - 1) ≤ durationMaxNanos := by
      calc 1000000000 * 2 ^ (n - 1) ≤ 1000000000 * 2 ^ 32 := by
            exact Nat.mul_le_mul_left _ (le_of_lt hpow)
        _ ≤ durationMaxNanos := by norm_num [durationMaxNanos]
    simp only [ReconnectPolicy.delay_for_attempt, ReconnectPolicy.defaultPolicy,
      hmod64, hmod32]
    rw [min_eq_left hsat]
  · intro n
    simp [ReconnectPolicy.should_retry, ReconnectPolicy.defaultPolicy]

/-- Witness for C7 at attempt 4 (delay 8 s) and attempt 2 (retry allowed). -/
theorem delay_for_attempt_spec_witness :
    ReconnectPolicy.defaultPolicy.delay_for_attempt 4 =
        min (1000000000 * 2 ^ 3) 10000000000 ∧
      ReconnectPolicy.defaultPolicy.should_retry 2 = true :=
  ⟨delay_for_attempt_spec.1 4 (by norm_num) (by norm_num),
   (delay_for_attempt_spec.2 2).mpr (by norm_num)⟩

/-- Counterexample for C7 as stated: at attempt 33 the computed delay is 0,
not `min(base * 2^32, max_delay) = 10 s`, because the u64 multiplier
2^32 truncates to 0 in the `as u32` cast. -/
theorem delay_for_attempt_overflow_zero :
    ReconnectPolicy.defaultPolicy.delay_for_attempt 33 = 0 ∧
      min (1000000000 * 2 ^ (33 - 1)) 10000000000 = 10000000000 ∧
      (0 : Nat) ≠ 10000000000 := by
  refine ⟨?_, by norm_num, by norm_num⟩
  simp only [ReconnectPolicy.delay_for_attempt, ReconnectPolicy.defaultPolicy]
  norm_num

end Conn

namespace Mix

/-- Soft clipping function from mixer.rs, with `f32` modelled as `ℝ`:
identity on [-1, 1], `1 - exp(-x + 1) * 0.5` above 1 and
`-1 + exp(x + 1) * 0.5` below -1. -/
noncomputable def soft_clip (sample : ℝ) : ℝ :=
  if 1 < sample then 1 - Real.exp (-sample + 1) * 0.5
  else if sample < -1 then -1 + Real.exp (sample + 1) * 0.5
  else sample

theorem exp_lt_one_of_neg {x : ℝ} (h : x < 0) : Real.exp x < 1 := by
  calc Real.exp x < Real.exp 0 := Real.exp_lt_exp.mpr h
    _ = 1 := Real.exp_zero

/-- Counterexample for C6 as stated: `soft_clip` is not nondecreasing.
It maps 1 to 1 but 2 to 1 - exp(-1)/2 < 1, so it strictly decreases
across the seam at 1. -/
theorem soft_clip_not_monotone : (1 : ℝ) ≤ 2 ∧ soft_clip 2 < soft_clip 1 := by
  refine ⟨by norm_num, ?_⟩
  have h2 : soft_clip 2 = 1 - Real.exp (-2 + 1) * 0.5 := by
    rw [soft_clip, if_pos (by norm_num)]
  have h1 : soft_clip 1 = 1 := by
    rw [soft_clip, if_neg (by norm_num), if_neg (by norm_num)]
  rw [h1, h2]
  have hpos : (0 : ℝ) < Real.exp (-2 + 1) * 0.5 :=
    mul_pos (Real.exp_pos _) (by norm_num)
  linarith

/-- C6 (amended): `|soft_clip x| ≤ 1` everywhere, `soft_clip` is the
identity on [-1, 1] and computes the two exponential branches outside it,
and it is nondecreasing on each of the three branch domains, though not
globally (see the counterexample at the seam x = 1). -/
theorem soft_clip_spec :
    (∀ x : ℝ, |soft_clip x| ≤ 1) ∧
    (∀ x : ℝ, -1 ≤ x → x ≤ 1 → soft_clip x = x) ∧
    (∀ x : ℝ, 1 < x → soft_clip x = 1 - Real.exp (1 - x) * (1 / 2)) ∧
    (∀ x : ℝ, x < -1 → soft_clip x = -1 + Real.exp (1 + x) * (1 / 2)) ∧
    (∀ x y : ℝ, 1 < x → x ≤ y → soft_clip x ≤ soft_clip y) ∧
    (∀ x y : ℝ, -1 ≤ x → x ≤ y → y ≤ 1 → soft_clip x ≤ soft_clip y) ∧
    (∀ x y : ℝ, x ≤ y → y < -1 → soft_clip x ≤ soft_clip y) := by
  refine ⟨?_, ?_, ?_, ?_, ?_, ?_, ?_⟩
  · intro x
    rw [soft_clip]
    split_ifs with h1 h2
    · have hlt : Real.exp (-x + 1) < 1 := exp_lt_one_of_neg (by linarith)
      have hpos := Real.exp_pos (-x + 1)
      rw [abs_le]
      constructor <;> nlinarith
    · have hlt : Real.exp (x + 1) < 1 := exp_lt_one_of_neg (by linarith)
      have hpos := Real.exp_pos (x + 1)
      rw [abs_le]
      constructor <;> nlinarith
    · rw [abs_le]
      constructor <;> linarith
  · intro x hlo hhi
    rw [soft_clip, if_neg (by linarith), if_neg (by linarith)]
  · intro x h
    rw [soft_clip, if_pos h]
    have harg : -x + 1 = 1 - x := by ring
    rw [harg]
    norm_num
  · intro x h
    rw [soft_clip, if_neg (by linarith), if_pos h]
    have harg : x + 1 = 1 + x := by ring
    rw [harg]
    norm_num
  · intro x y hx hxy
    rw [soft_clip, soft_clip, if_pos hx, if_pos (by linarith)]
    have := Real.exp_le_exp.mpr (show -y + 1 ≤ -x + 1 by linarith)
    nlinarith [Real.exp_pos (-y + 1)]
  · intro x y hx hxy hy
    rw [soft_clip, soft_clip, if_neg (by linarith), if_neg (by linarith),
      if_neg (by linarith), if_neg (by linarith)]
    exact hxy
  · intro x y hxy hy
    rw [soft_clip, soft_clip, if_neg (by linarith), if_pos (by linarith),
      if_neg (by linarith), if_pos hy]
    have := Real.exp_le_exp.mpr (show x + 1 ≤ y + 1 by linarith)
    nlinarith [Real.exp_pos (x + 1)]

/-- Witness for C6 (amended) at concrete points of each branch. -/
theorem soft_clip_spec_witness :
    |soft_clip 3| ≤ 1 ∧
      soft_clip (1 / 2) = 1 / 2 ∧
      soft_clip 2 = 1 - Real.exp (1 - 2) * (1 / 2) ∧
      soft_clip (-2) = -1 + Real.exp (1 + -2) * (1 / 2) ∧
      soft_clip 2 ≤ soft_clip 3 ∧
      soft_clip 0 ≤ soft_clip (1 / 2) ∧
      soft_clip (-3) ≤ soft_clip (-2) :=
  ⟨soft_clip_spec.1 3,
   soft_clip_spec.2.1 (1 / 2) (by norm_num) (by norm_num),
   soft_clip_spec.2.2.1 2 (by norm_num),
   soft_clip_spec.2.2.2.1 (-2) (by norm_num),
   soft_clip_spec.2.2.2.2.1 2 3 (by norm_num) (by norm_num),
   soft_clip_spec.2.2.2.2.2.1 0 (1 / 2) (by norm_num) (by norm_num) (by norm_num),
   soft_clip_spec.2.2.2.2.2.2 (-3) (-2) (by norm_num) (by norm_num)⟩

/-- Rust `f32::clamp(lo, hi)` for non-NaN inputs, over `ℚ`. -/
def rustClamp (v lo hi : ℚ) : ℚ :=
  if v < lo then lo else if hi < v then hi else v

/-- The volume and mute state of one mixer input (mixer.rs `MixerInput`). -/
structure MixerInput where
  volume : ℚ
  muted : Bool
  deriving DecidableEq, Repr

/-- A fresh mixer input: volume 1.0, unmuted. -/
def MixerInput.new : MixerInput := ⟨1, false⟩

/-- Set the volume for this input, clamped to [0, 1] (mixer.rs). -/
def MixerInput.set_volume (m : MixerInput) (volume : ℚ) : MixerInput :=
  { m with volume := rustClamp volume 0 1 }

/-- The volume and mute state owned by the mixer (mixer.rs `AudioMixer`). -/
structure AudioMixer where
  mic_volume : ℚ
  system_volume : ℚ
  mic_muted : Bool
  system_muted : Bool
  deriving DecidableEq, Repr

/-- A fresh mixer: both volumes 1.0, both inputs unmuted. -/
def AudioMixer.new : AudioMixer := ⟨1, 1, false, false⟩

/-- Set microphone volume, clamped to [0, 1] (mixer.rs). -/
def AudioMixer.set_mic_volume (m : AudioMixer) (volume : ℚ) : AudioMixer :=
  { m with mic_volume := rustClamp volume 0 1 }

/-- Set system audio volume, clamped to [0, 1] (mixer.rs). -/
def AudioMixer.set_system_volume (m : AudioMixer) (volume : ℚ) : AudioMixer :=
  { m with system_volume := rustClamp volume 0 1 }

/-- Set microphone muted state (mixer.rs). -/
def AudioMixer.set_mic_muted (m : AudioMixer) (muted : Bool) : AudioMixer :=
  { m with mic_muted := muted }

/-- Set system muted state (mixer.rs). -/
def AudioMixer.set_system_muted (m : AudioMixer) (muted : Bool) : AudioMixer :=
  { m with system_muted := muted }

/-- The volume and mute commands the engine forwards to the mixer. -/
inductive MixerCommand where
  | setMicVolume (v : ℚ)
  | setSystemVolume (v : ℚ)
  | setMicMuted (b : Bool)
  | setSystemMuted (b : Bool)
  deriving DecidableEq, Repr

def applyMixerCommand (m : AudioMixer) : MixerCommand → AudioMixer
  | .setMicVolume v => m.set_mic_volume v
  | .setSystemVolume v => m.set_system_volume v
  | .setMicMuted b => m.set_mic_muted b
  | .setSystemMuted b => m.set_system_muted b

def runMixerCommands (m : AudioMixer) (cs : List MixerCommand) : AudioMixer :=
  cs.foldl applyMixerCommand m

/-- One tick of the mix loop for one non-muted input: each buffer slot
gains `sample * volume`, samples beyond the buffer length are ignored
(mixer.rs `mix_thread`). -/
def mixInto : List ℚ → List ℚ → ℚ → List ℚ
  | buf, [], _ => buf
  | [], _, _ => []
  | b :: buf, s :: ss, v => (b + s * v) :: mixInto buf ss v

theorem rustClamp01_bounds (v : ℚ) : 0 ≤ rustClamp v 0 1 ∧ rustClamp v 0 1 ≤ 1 := by
  rw [rustClamp]
  split_ifs <;> constructor <;> linarith

theorem runMixerCommands_bounds_aux (cs : List MixerCommand) :
    ∀ m : AudioMixer,
      0 ≤ m.mic_volume ∧ m.mic_volume ≤ 1 ∧
        0 ≤ m.system_volume ∧ m.system_volume ≤ 1 →
      0 ≤ (runMixerCommands m cs).mic_volume ∧
        (runMixerCommands m cs).mic_volume ≤ 1 ∧
        0 ≤ (runMixerCommands m cs).system_volume ∧
        (runMixerCommands m cs).system_volume ≤ 1 := by
  induction cs with
  | nil => intro m hm; exact hm
  | cons c cs ih =>
      intro m hm
      apply ih
      cases c with
      | setMicVolume v =>
          have := rustClamp01_bounds v
          exact ⟨this.1, this.2, hm.2.2.1, hm.2.2.2⟩
      | setSystemVolume v =>
          have := rustClamp01_bounds v
          exact ⟨hm.1, hm.2.1, this.1, this.2⟩
      | setMicMuted b => exact hm
      | setSystemMuted b => exact hm

/-- C10: every volume setter stores exactly the clamp of its argument to
[0, 1], hence the stored gains and, inductively over any command
sequence from a fresh mixer, the gains read by the mix loop always lie
in [0, 1]. -/
theorem volume_clamp_invariant :
    (∀ (m : MixerInput) (v : ℚ),
        (m.set_volume v).volume = rustClamp v 0 1 ∧
        0 ≤ (m.set_volume v).volume ∧ (m.set_volume v).volume ≤ 1) ∧
    (∀ (m : AudioMixer) (v : ℚ),
        (m.set_mic_volume v).mic_volume = rustClamp v 0 1 ∧
        0 ≤ (m.set_mic_volume v).mic_volume ∧ (m.set_mic_volume v).mic_volume ≤ 1) ∧
    (∀ (m : AudioMixer) (v : ℚ),
        (m.set_system_volume v).system_volume = rustClamp v 0 1 ∧
        0 ≤ (m.set_system_volume v).system_volume ∧
        (m.set_system_volume v).system_volume ≤ 1) ∧
    (∀ cs : List MixerCommand,
        0 ≤ (runMixerCommands AudioMixer.new cs).mic_volume ∧
        (runMixerCommands AudioMixer.new cs).mic_volume ≤ 1 ∧
        0 ≤ (runMixerCommands AudioMixer.new cs).system_volume ∧
        (runMixerCommands AudioMixer.new cs).system_volume ≤ 1) := by
  refine ⟨?_, ?_, ?_, ?_⟩
  · intro m v
    exact ⟨rfl, (rustClamp01_bounds v).1, (rustClamp01_bounds v).2⟩
  · intro m v
    exact ⟨rfl, (rustClamp01_bounds v).1, (rustClamp01_bounds v).2⟩
  · intro m v
    exact ⟨rfl, (rustClamp01_bounds v).1, (rustClamp01_bounds v).2⟩
  · intro cs
    exact runMixerCommands_bounds_aux cs AudioMixer.new
      (by norm_num [AudioMixer.new])

end Mix

namespace Aac

/-- Audio encoder configuration (broadcaster-encoder). -/
structure AudioEncoderConfig where
  sample_rate : Nat
  channels : Nat
  bitrate_kbps : Nat
  deriving DecidableEq, Repr

/-- A raw AAC access unit with its presentation timestamp in 100 ns
units (broadcaster-encoder `EncodedAudioPacket`). -/
structure EncodedAudioPacket where
  data : List Nat
  pts_100ns : Nat
  deriving DecidableEq, Repr

/-- The buffering state of the AAC encoder (aac.rs).  The external
fdk-aac library is not part of this state; it is threaded through
`encode` as an abstract state-passing core. -/
structure AacEncoder where
  config : AudioEncoderConfig
  samples_per_frame : Nat
  sample_buffer : List ℚ
  frame_count : Nat
  deriving DecidableEq, Repr

/-- Constructor logic of `AacEncoder::new`: the frame size is 1024
samples per channel and the buffer starts empty. -/
def AacEncoder.new (config : AudioEncoderConfig) : AacEncoder :=
  { config := config
    samples_per_frame := 1024 * config.channels
    sample_buffer := []
    frame_count := 0 }

/-- Truncation toward zero, the semantics of the Rust `as` cast from a
float in range. -/
def ratTrunc (q : ℚ) : Int :=
  if 0 ≤ q then ⌊q⌋ else -⌊-q⌋

/-- Convert an f32 sample to i16 for encoding (aac.rs `f32_to_i16`):
clamp to [-1, 1], scale by 32767, cast. -/
def f32_to_i16 (s : ℚ) : Int :=
  ratTrunc (Mix.rustClamp s (-1) 1 * 32767)

/-- One call of `AacEncoder::encode` (aac.rs).  `core` abstracts the
stateful fdk-aac encoder: it consumes one PCM frame and returns the
encoded bytes, an empty output meaning the library is still buffering. -/
def AacEncoder.encode {σ : Type} (core : σ → List Int → σ × List Nat)
    (cs : σ) (e : AacEncoder) (samples : List ℚ) (pts_100ns : Nat) :
    (σ × AacEncoder) × Option EncodedAudioPacket :=
  let buf := e.sample_buffer ++ samples
  if buf.length < e.samples_per_frame then
    ((cs, { e with sample_buffer := buf }), none)
  else
    let frame_samples := buf.take e.samples_per_frame
    let rest := buf.drop e.samples_per_frame
    let pcm_i16 := frame_samples.map f32_to_i16
    let r := core cs pcm_i16
    if r.2.isEmpty then
      ((r.1, { e with sample_buffer := rest, frame_count := e.frame_count + 1 }), none)
    else
      ((r.1, { e with sample_buffer := rest, frame_count := e.frame_count + 1 }),
        some ⟨r.2, pts_100ns⟩)

/-- `AacEncoder::flush` (aac.rs): pad the remaining samples with silence
to a full frame, encode them, and stamp the packet from `frame_count`. -/
def AacEncoder.flush {σ : Type} (core : σ → List Int → σ × List Nat)
    (cs : σ) (e : AacEncoder) : (σ × AacEncoder) × List EncodedAudioPacket :=
  if e.sample_buffer.isEmpty then ((cs, e), [])
  else
    let padding_needed := e.samples_per_frame - e.sample_buffer.length
    let padded := e.sample_buffer ++ List.replicate padding_needed 0
    let pcm_i16 := padded.map f32_to_i16
    let r := core cs pcm_i16
    let packets : List EncodedAudioPacket :=
      if r.2.isEmpty then []
      else [⟨r.2, e.frame_count * 1024 * 10000000 / e.config.sample_rate⟩]
    ((r.1, { e with sample_buffer := [] }), packets)

/-- C5 (amended): `encode` accumulates samples and returns `none` while
the buffer holds less than one frame; once a frame is complete it drains
exactly `samples_per_frame` samples, feeds them to the core, and any
emitted packet carries the `pts_100ns` argument of the call that
completed the frame (not the PTS of the first sample of the frame — see
the counterexample); `flush` pads the remaining samples with silence to
one full frame and encodes them. -/
theorem aac_encode_spec :
    (∀ (σ : Type) (core : σ → List Int → σ × List Nat) (cs : σ)
        (e : AacEncoder) (samples : List ℚ) (pts : Nat),
      (e.sample_buffer ++ samples).length < e.samples_per_frame →
      AacEncoder.encode core cs e samples pts =
        ((cs, { e with sample_buffer := e.sample_buffer ++ samples }), none)) ∧
    (∀ (σ : Type) (core : σ → List Int → σ × List Nat) (cs : σ)
        (e : AacEncoder) (samples : List ℚ) (pts : Nat),
      e.samples_per_frame ≤ (e.sample_buffer ++ samples).length →
      AacEncoder.encode core cs e samples pts =
        (((core cs (((e.sample_buffer ++ samples).take e.samples_per_frame).map
              f32_to_i16)).1,
          { e with
              sample_buffer := (e.sample_buffer ++ samples).drop e.samples_per_frame
              frame_count := e.frame_count + 1 }),
         if (core cs (((e.sample_buffer ++ samples).take e.samples_per_frame).map
              f32_to_i16)).2.isEmpty then none
         else some ⟨(core cs (((e.sample_buffer ++ samples).take
              e.samples_per_frame).map f32_to_i16)).2, pts⟩)) ∧
    (∀ (σ : Type) (core : σ → List Int → σ × List Nat) (cs : σ) (e : AacEncoder),
      e.sample_buffer = [] → AacEncoder.flush core cs e = ((cs, e), [])) ∧
    (∀ (σ : Type) (core : σ → List Int → σ × List Nat) (cs : σ) (e : AacEncoder),
      e.sample_buffer ≠ [] →
      AacEncoder.flush core cs e =
        (((core cs ((e.sample_buffer ++
              List.replicate (e.samples_per_frame - e.sample_buffer.length) 0).map
              f32_to_i16)).1,
          { e with sample_buffer := [] }),
         if (core cs ((e.sample_buffer ++
              List.replicate (e.samples_per_frame - e.sample_buffer.length) 0).map
              f32_to_i16)).2.isEmpty then []
         else [⟨(core cs ((e.sample_buffer ++
              List.replicate (e.samples_per_frame - e.sample_buffer.length) 0).map
              f32_to_i16)).2,
            e.frame_count * 1024 * 10000000 / e.config.sample_rate⟩]) ∧
      (e.sample_buffer.length ≤ e.samples_per_frame →
        (e.sample_buffer ++
          List.replicate (e.samples_per_frame - e.sample_buffer.length)
            (0 : ℚ)).length = e.samples_per_frame)) := by
  refine ⟨?_, ?_, ?_, ?_⟩
  · intro σ core cs e samples pts hlt
    rw [AacEncoder.encode]
    simp only [if_pos hlt]
  · intro σ core cs e samples pts hge
    rw [AacEncoder.encode]
    rw [if_neg (not_lt.mpr hge)]
    dsimp only
    split <;> rfl
  · intro σ core cs e hnil
    rw [AacEncoder.flush]
    simp [hnil]
  · intro σ core cs e hne
    constructor
    · rw [AacEncoder.flush]
      rw [if_neg (by simpa [List.isEmpty_iff] using hne)]
    · intro hle
      simp only [List.length_append, List.length_replicate]
      omega

set_option maxRecDepth 16384 in
/-- Witness for C5 (amended): a call that leaves the buffer short of a
frame returns `none` and accumulates; a call that completes the frame
emits the core output stamped with the pts of that call; flush on an
empty buffer is a no-op; flush pads 3 buffered samples to the 1024-sample
frame. -/
theorem aac_encode_spec_witness :
    AacEncoder.encode (fun (_ : Unit) _ => ((), [171])) ()
        (AacEncoder.new ⟨48000, 1, 128⟩) (List.replicate 3 0) 7 =
      (((), { config := ⟨48000, 1, 128⟩, samples_per_frame := 1024,
              sample_buffer := List.replicate 3 0, frame_count := 0 }), none) ∧
    AacEncoder.encode (fun (_ : Unit) _ => ((), [171])) ()
        (AacEncoder.new ⟨48000, 1, 128⟩) (List.replicate 1024 0) 55 =
      (((), { config := ⟨48000, 1, 128⟩, samples_per_frame := 1024,
              sample_buffer := [], frame_count := 1 }), some ⟨[171], 55⟩) ∧
    AacEncoder.flush (fun (_ : Unit) _ => ((), [171])) ()
        (AacEncoder.new ⟨48000, 1, 128⟩) =
      (((), AacEncoder.new ⟨48000, 1, 128⟩), []) ∧
    ((List.replicate 3 (0 : ℚ)) ++
        List.replicate (1024 - (List.replicate 3 (0 : ℚ)).length) (0 : ℚ)).length =
      1024 := by
  obtain ⟨h1, h2, h3, h4⟩ := aac_encode_spec
  refine ⟨?_, ?_, ?_, ?_⟩
  · rw [h1 Unit (fun _ _ => ((), [171])) () (AacEncoder.new ⟨48000, 1, 128⟩)
        (List.replicate 3 0) 7 (by decide)]
    decide
  · rw [h2 Unit (fun _ _ => ((), [171])) () (AacEncoder.new ⟨48000, 1, 128⟩)
        (List.replicate 1024 0) 55 (by decide)]
    decide
  · exact h3 Unit (fun _ _ => ((), [171])) () (AacEncoder.new ⟨48000, 1, 128⟩) rfl
  · have := (h4 Unit (fun _ _ => ((), [171])) ()
        { config := ⟨48000, 1, 128⟩, samples_per_frame := 1024,
          sample_buffer := List.replicate 3 0, frame_count := 0 }
        (by simp)).2 (by simp)
    simp only [List.length_replicate] at this
    exact this

set_option maxRecDepth 16384 in
/-- Counterexample for the original C5: the first call buffers 1023
samples at pts 0 (so the first sample of the eventual frame has PTS 0),
the second call adds one sample at pts 999 and completes the frame; the
emitted packet carries pts 999, the pts of the completing call, not 0. -/
theorem aac_encode_pts_counterexample :
    (AacEncoder.encode (fun (_ : Unit) _ => ((), [171])) ()
        ((AacEncoder.encode (fun (_ : Unit) _ => ((), [171])) ()
            (AacEncoder.new ⟨48000, 1, 128⟩) (List.replicate 1023 0) 0).1.2)
        [0] 999).2 = some ⟨[171], 999⟩ ∧ (999 : Nat) ≠ 0 := by
  constructor
  · decide
  · norm_num

end Aac

namespace Engine

/-- Stream configuration (broadcaster-ipc types.rs); `f32` volumes are
modelled as rationals. -/
structure StreamConfig where
  rtmp_url : String
  stream_key : String
  capture_source : String
  mic_device : Option String
  mic_volume : ℚ
  system_volume : ℚ
  video_bitrate_kbps : Nat
  audio_bitrate_kbps : Nat
  deriving DecidableEq, Repr

/-- Real-time stream metrics (broadcaster-ipc types.rs). -/
structure StreamMetrics where
  fps : ℚ
  target_fps : ℚ
  bitrate_kbps : Nat
  target_bitrate_kbps : Nat
  dropped_frames : Nat
  capture_drops : Nat
  encode_drops : Nat
  network_drops : Nat
  encoder_load_percent : ℚ
  buffer_fullness_percent : ℚ
  uptime_seconds : Nat
  deriving DecidableEq, Repr

/-- The `Default` instance of `StreamMetrics`: all fields zero. -/
def StreamMetrics.defaultMetrics : StreamMetrics :=
  ⟨0, 0, 0, 0, 0, 0, 0, 0, 0, 0, 0⟩

/-- Startup phases, in order (broadcaster-ipc state.rs). -/
inductive StartupPhase where
  | initCapture
  | initAudio
  | initEncoder
  | connectRtmp
  | startTransmission
  deriving DecidableEq, Repr

/-- Shutdown phases, in order (broadcaster-ipc state.rs). -/
inductive ShutdownPhase where
  | stopTransmission
  | disconnectRtmp
  | shutdownEncoder
  | shutdownAudio
  | shutdownCapture
  deriving DecidableEq, Repr

/-- Reason for stopping the stream (broadcaster-ipc state.rs). -/
inductive StopReason where
  | userRequested
  | networkLost
  | encoderError (message : String)
  | captureError (message : String)
  | fatalError (message : String)
  deriving DecidableEq, Repr

/-- The engine state machine (broadcaster-ipc state.rs `EngineState`). -/
inductive EngineState where
  | idle
  | starting (phase : StartupPhase)
  | live (config : StreamConfig) (metrics : StreamMetrics)
  | stopping (reason : StopReason) (phase : ShutdownPhase)
  | error (message : String) (recoverable : Bool)
  deriving DecidableEq, Repr

def EngineState.is_idle : EngineState → Bool
  | .idle => true
  | _ => false

def EngineState.is_live : EngineState → Bool
  | .live _ _ => true
  | _ => false

def EngineState.is_starting : EngineState → Bool
  | .starting _ => true
  | _ => false

def EngineState.is_stopping : EngineState → Bool
  | .stopping _ _ => true
  | _ => false

def EngineState.is_error : EngineState → Bool
  | .error _ _ => true
  | _ => false

/-- The engine events the modelled operations can emit (broadcaster-ipc
events.rs; the device-list and warning variants are never produced by the
operations modelled here and are omitted). -/
inductive EngineEvent where
  | stateChanged (previous current : EngineState)
  | metrics (m : StreamMetrics)
  | ready
  | shutdownEvent
  deriving DecidableEq, Repr

/-- `Engine::transition_to` (orchestrator.rs): replace the state and emit
one `StateChanged` event carrying the previous and the new state. -/
def transition_to (s : EngineState) (events : List EngineEvent)
    (new_state : EngineState) : EngineState × List EngineEvent :=
  (new_state, events ++ [.stateChanged s new_state])

/-- `Engine::start_stream` (orchestrator.rs).  Resource initialization is
abstracted as its `Result`: `ok` leads to Live, `error e` to a rollback
and a recoverable Error state.  Idempotent in Starting and Live. -/
def start_stream (s : EngineState) (events : List EngineEvent)
    (config : StreamConfig) (initResult : Except String Unit) :
    EngineState × List EngineEvent :=
  if s.is_starting || s.is_live then (s, events)
  else
    let r1 := transition_to s events (.starting .initCapture)
    match initResult with
    | .ok _ =>
        transition_to r1.1 r1.2 (.live config StreamMetrics.defaultMetrics)
    | .error e =>
        transition_to r1.1 r1.2 (.error e true)

/-- `Engine::stop_stream` (orchestrator.rs): idempotent in Idle and
Stopping, otherwise transitions through Stopping to Idle. -/
def stop_stream (s : EngineState) (events : List EngineEvent)
    (reason : StopReason) : EngineState × List EngineEvent :=
  if s.is_idle || s.is_stopping then (s, events)
  else
    let r1 := transition_to s events (.stopping reason .stopTransmission)
    transition_to r1.1 r1.2 .idle

/-- C9: Start is a no-op (state and events unchanged) in Starting or
Live, Stop is a no-op in Idle or Stopping, and every accepted transition
emits exactly one `StateChanged` event carrying the previous and the new
state. -/
theorem engine_transitions_spec :
    (∀ (s : EngineState) (events : List EngineEvent) (config : StreamConfig)
        (r : Except String Unit),
      (s.is_starting || s.is_live) = true →
      start_stream s events config r = (s, events)) ∧
    (∀ (s : EngineState) (events : List EngineEvent) (reason : StopReason),
      (s.is_idle || s.is_stopping) = true →
      stop_stream s events reason = (s, events)) ∧
    (∀ (s : EngineState) (events : List EngineEvent) (n : EngineState),
      (transition_to s events n).1 = n ∧
      (transition_to s events n).2 = events ++ [.stateChanged s n]) := by
  refine ⟨?_, ?_, ?_⟩
  · intro s events config r h
    rw [start_stream, if_pos h]
  · intro s events reason h
    rw [stop_stream, if_pos h]
  · intro s events n
    exact ⟨rfl, rfl⟩

/-- Witness for C9: Start is ignored while Live, Stop is ignored while
Idle, and a concrete accepted transition emits its single event. -/
theorem engine_transitions_spec_witness :
    start_stream
        (.live ⟨"rtmp://e/app", "k", "monitor:1", none, 1, 1, 6000, 128⟩
          StreamMetrics.defaultMetrics)
        [] ⟨"rtmp://e/app", "k", "monitor:1", none, 1, 1, 6000, 128⟩
        (.ok ()) =
      ((.live ⟨"rtmp://e/app", "k", "monitor:1", none, 1, 1, 6000, 128⟩
          StreamMetrics.defaultMetrics), []) ∧
    stop_stream .idle [] .userRequested = (.idle, []) ∧
    (transition_to .idle [] (.starting .initCapture)).2 =
      [.stateChanged .idle (.starting .initCapture)] := by
  obtain ⟨h1, h2, h3⟩ := engine_transitions_spec
  exact ⟨h1 _ [] _ (.ok ()) (by decide),
    h2 .idle [] .userRequested (by decide),
    (h3 .idle [] (.starting .initCapture)).2⟩

/-- The packet type the orchestrator enqueues (the `RtmpPacket` shape
constructed in orchestrator.rs, the spec WirePacket). -/
structure WirePacket where
  data : List Nat
  timestamp_ms : Nat
  is_video : Bool
  is_keyframe : Bool
  is_sequence_header : Bool
  deriving DecidableEq, Repr

/-- A mixed audio chunk as consumed by the stream loop (the byte buffer
reinterpreted as f32 samples). -/
structure MixedAudioChunk where
  data : List ℚ
  pts_100ns : Nat
  deriving DecidableEq, Repr

/-- One audio chunk of the stream-loop audio section (orchestrator.rs,
`stream_loop`): feed the chunk to the AAC encoder and, when a packet is
emitted, enqueue its raw bytes as an audio packet.  Note the enqueued
payload is `packet.data` itself: no FLV audio tag is built around it and
no audio sequence header is ever produced. -/
def processAudioChunk {σ : Type} (core : σ → List Int → σ × List Nat)
    (st : σ × Aac.AacEncoder) (queue : List WirePacket) (elapsed_ms : Nat)
    (chunk : MixedAudioChunk) : (σ × Aac.AacEncoder) × List WirePacket :=
  match Aac.AacEncoder.encode core st.1 st.2 chunk.data chunk.pts_100ns with
  | (st', some packet) =>
      (st', queue ++ [{ data := packet.data
                        timestamp_ms := elapsed_ms
                        is_video := false
                        is_keyframe := false
                        is_sequence_header := false }])
  | (st', none) => (st', queue)

/-- The audio drain of one stream-loop tick (orchestrator.rs): process
every available mixed audio chunk in order. -/
def processAudioChunks {σ : Type} (core : σ → List Int → σ × List Nat)
    (st : σ × Aac.AacEncoder) (queue : List WirePacket) (elapsed_ms : Nat)
    (chunks : List MixedAudioChunk) : (σ × Aac.AacEncoder) × List WirePacket :=
  chunks.foldl (fun acc chunk => processAudioChunk core acc.1 acc.2 elapsed_ms chunk)
    (st, queue)

set_option maxRecDepth 16384 in
/-- C1 is violated by the code: one full frame of mixed audio produces a
wire packet whose payload is the raw AAC bytes returned by the encoder
(here 0x12 0x34, so byte 0 is 0x12, not the FLV audio tag byte 0xAF, and
byte 1 is not an AVC packet type), and no audio sequence-header packet is
ever enqueued. -/
theorem audio_branch_sends_raw_aac :
    processAudioChunks (fun (_ : Unit) _ => ((), [0x12, 0x34]))
        ((), Aac.AacEncoder.new ⟨48000, 1, 128⟩) [] 5
        [⟨List.replicate 1024 0, 0⟩] =
      (((), { config := ⟨48000, 1, 128⟩, samples_per_frame := 1024,
              sample_buffer := [], frame_count := 1 }),
        [{ data := [0x12, 0x34], timestamp_ms := 5, is_video := false,
           is_keyframe := false, is_sequence_header := false }]) ∧
    (0x12 : Nat) ≠ 0xAF ∧
    ([{ data := [0x12, 0x34], timestamp_ms := 5, is_video := false,
        is_keyframe := false, is_sequence_header := false }] : List WirePacket).filter
        (fun p => p.is_sequence_header) = [] := by
  refine ⟨?_, by norm_num, by decide⟩
  decide

end Engine

namespace Rtmp

/-- A packet to send over RTMP (rtmp.rs `RtmpPacket`). -/
structure RtmpPacket where
  data : List Nat
  timestamp_ms : Nat
  is_video : Bool
  is_keyframe : Bool
  deriving DecidableEq, Repr

/-- Transport statistics (rtmp.rs `TransportStatistics`). -/
structure TransportStatistics where
  bytes_sent : Nat
  packets_sent : Nat
  packets_dropped : Nat
  deriving DecidableEq, Repr

/-- The counter fields owned by `RtmpClient` (rtmp.rs): these are the
`AtomicU64` struct fields that `statistics()` reads. -/
structure RtmpClient where
  bytes_sent : Nat
  packets_sent : Nat
  packets_dropped : Nat
  deriving DecidableEq, Repr

/-- `RtmpClient::new`: counters start at zero. -/
def RtmpClient.new : RtmpClient := ⟨0, 0, 0⟩

/-- `RtmpClient::statistics` reads the client struct fields. -/
def RtmpClient.statistics (c : RtmpClient) : TransportStatistics :=
  ⟨c.bytes_sent, c.packets_sent, c.packets_dropped⟩

/-- The counters the connection task increments.  `RtmpClient::connect`
creates these as fresh `Arc<AtomicU64>` values starting at zero; they are
not the fields of the client struct. -/
structure ConnectionCounters where
  bytes_sent : Nat
  packets_sent : Nat
  packets_dropped : Nat
  deriving DecidableEq, Repr

/-- `RtmpClient::connect` (rtmp.rs): spawns the connection task with
fresh zeroed counters and leaves the client struct fields untouched. -/
def RtmpClient.connect (c : RtmpClient) : RtmpClient × ConnectionCounters :=
  (c, ⟨0, 0, 0⟩)

/-- The session publish call a packet turns into (rtmp.rs `send_packet`). -/
inductive PublishCall where
  | video (data : List Nat) (timestamp_ms : Nat) (can_be_dropped : Bool)
  | audio (data : List Nat) (timestamp_ms : Nat) (can_be_dropped : Bool)
  deriving DecidableEq, Repr

/-- `send_packet` (rtmp.rs): video publishes with
`can_be_dropped = !is_keyframe`, audio always with `false`. -/
def send_packet (packet : RtmpPacket) : PublishCall :=
  if packet.is_video then
    .video packet.data packet.timestamp_ms (!packet.is_keyframe)
  else
    .audio packet.data packet.timestamp_ms false

/-- The successful-send path of `run_rtmp_connection` (rtmp.rs): for each
dequeued packet, publish it and add the payload length to `bytes_sent`
and one to `packets_sent` — on the task counters. -/
def runSendLoop (t : ConnectionCounters) (packets : List RtmpPacket) :
    ConnectionCounters × List PublishCall :=
  packets.foldl
    (fun acc packet =>
      ({ acc.1 with
          bytes_sent := acc.1.bytes_sent + packet.data.length
          packets_sent := acc.1.packets_sent + 1 },
        acc.2 ++ [send_packet packet]))
    (t, [])

theorem runSendLoop_totals_aux (packets : List RtmpPacket) :
    ∀ (t : ConnectionCounters) (calls : List PublishCall),
      (packets.foldl
        (fun acc packet =>
          ({ acc.1 with
              bytes_sent := acc.1.bytes_sent + packet.data.length
              packets_sent := acc.1.packets_sent + 1 },
            acc.2 ++ [send_packet packet]))
        (t, calls)).1 =
      { t with
          bytes_sent := t.bytes_sent + (packets.map fun p => p.data.length).sum
          packets_sent := t.packets_sent + packets.length } := by
  induction packets with
  | nil => intro t calls; simp
  | cons p ps ih =>
      intro t calls
      rw [List.foldl_cons, ih]
      simp [Nat.add_assoc, Nat.add_comm, Nat.add_left_comm]

/-- C4 is violated by the code: the data plane publishes with the claimed
`can_be_dropped` flags and the task counters do accumulate the sent bytes
and packets, but `statistics()` reads the client struct fields, which the
connect call leaves at zero and the task never touches — so after a
successful 5-byte keyframe send the statistics still report zeros. -/
theorem rtmp_statistics_stay_zero :
    runSendLoop (RtmpClient.new.connect).2 [⟨[1, 2, 3, 4, 5], 40, true, true⟩] =
      (⟨5, 1, 0⟩, [.video [1, 2, 3, 4, 5] 40 false]) ∧
    runSendLoop (RtmpClient.new.connect).2
        [⟨[1, 2, 3, 4, 5], 40, true, true⟩, ⟨[7, 7], 60, false, false⟩] =
      (⟨7, 2, 0⟩,
        [.video [1, 2, 3, 4, 5] 40 false, .audio [7, 7] 60 false]) ∧
    (RtmpClient.new.connect).1.statistics = ⟨0, 0, 0⟩ ∧
    (⟨5, 1, 0⟩ : ConnectionCounters) ≠ ⟨0, 0, 0⟩ ∧
    (∀ packets : List RtmpPacket,
      (runSendLoop ⟨0, 0, 0⟩ packets).1.bytes_sent =
          (packets.map fun p => p.data.length).sum ∧
        (runSendLoop ⟨0, 0, 0⟩ packets).1.packets_sent = packets.length) := by
  refine ⟨by decide, by decide, by decide, by decide, ?_⟩
  intro packets
  rw [runSendLoop, runSendLoop_totals_aux]
  simp

end Rtmp

namespace FramePool

/-- Bounds-checked read: Rust slice indexing panics out of range. -/
def getByte (l : List Nat) (i : Nat) : Option Nat := l[i]?

/-- Bounds-checked write: Rust `Vec` index assignment panics out of range. -/
def setByte (l : List Nat) (i : Nat) (v : Nat) : Option (List Nat) :=
  if i < l.length then some (l.set i v) else none

/-- The `as u8` cast of a nonnegative float: truncation toward zero with
saturation at the type bounds. -/
def f32_as_u8 (q : ℚ) : Nat :=
  if q ≤ 0 then 0 else if 255 ≤ q then 255 else (⌊q⌋).toNat

/-- One Y-plane pixel of `bgra_to_nv12` (frame_pool.rs): read B, G, R at
`y * row_pitch + x * 4`, write the BT.601 luma at `y * w + x`. -/
def yStep (bgra : List Nat) (row_pitch w : Nat) (nv12 : List Nat)
    (p : Nat × Nat) : Option (List Nat) :=
  let src_offset := p.1 * row_pitch + p.2 * 4
  (getByte bgra src_offset).bind fun b =>
    (getByte bgra (src_offset + 1)).bind fun g =>
      (getByte bgra (src_offset + 2)).bind fun r =>
        setByte nv12 (p.1 * w + p.2)
          (f32_as_u8 ((299 / 1000 : ℚ) * r + (587 / 1000) * g + (114 / 1000) * b))

/-- One 2x2 UV block of `bgra_to_nv12` (frame_pool.rs): read the top-left
sample, write U at `uv_offset + (y / 2) * w + x` and V at the next byte. -/
def uvStep (bgra : List Nat) (row_pitch w uv_offset : Nat) (nv12 : List Nat)
    (p : Nat × Nat) : Option (List Nat) :=
  let src_offset := p.1 * row_pitch + p.2 * 4
  (getByte bgra src_offset).bind fun b =>
    (getByte bgra (src_offset + 1)).bind fun g =>
      (getByte bgra (src_offset + 2)).bind fun r =>
        let u := f32_as_u8 (Mix.rustClamp
          ((-(169 / 1000) : ℚ) * r - (331 / 1000) * g + (500 / 1000) * b + 128) 0 255)
        let v := f32_as_u8 (Mix.rustClamp
          ((500 / 1000 : ℚ) * r - (419 / 1000) * g - (81 / 1000) * b + 128) 0 255)
        let uv_idx := uv_offset + p.1 / 2 * w + p.2
        (setByte nv12 uv_idx u).bind fun nv12A => setByte nv12A (uv_idx + 1) v

/-- The row-major pixel traversal of the Y loop. -/
def pixelIndices (h w : Nat) : List (Nat × Nat) :=
  (List.range h).flatMap fun y => (List.range w).map fun x => (y, x)

/-- The traversal of the UV loop: `step_by(2)` in both dimensions. -/
def uvIndices (h w : Nat) : List (Nat × Nat) :=
  ((List.range ((h + 1) / 2)).map fun k => 2 * k).flatMap fun y =>
    ((List.range ((w + 1) / 2)).map fun j => 2 * j).map fun x => (y, x)

/-- `bgra_to_nv12` (frame_pool.rs): a `w * h` Y plane followed by a
`w * h / 2` interleaved UV plane, filled by the two loops; `none` models
an out-of-bounds panic. -/
def bgra_to_nv12 (w h : Nat) (bgra : List Nat) (row_pitch : Nat) :
    Option (List Nat) :=
  let y_size := w * h
  let uv_size := y_size / 2
  ((pixelIndices h w).foldlM (yStep bgra row_pitch w)
      (List.replicate (y_size + uv_size) 0)).bind fun nv12 =>
    (uvIndices h w).foldlM (uvStep bgra row_pitch w y_size) nv12

theorem setByte_some_length {l l' : List Nat} {i v : Nat}
    (h : setByte l i v = some l') : l'.length = l.length := by
  rw [setByte] at h
  split at h
  · cases h; simp
  · cases h

theorem getByte_isSome {l : List Nat} {i : Nat} (h : i < l.length) :
    getByte l i = some l[i] := by
  rw [getByte]
  exact List.getElem?_eq_getElem h

theorem yStep_some_length {bgra : List Nat} {rp w : Nat} {l l' : List Nat}
    {p : Nat × Nat} (h : yStep bgra rp w l p = some l') : l'.length = l.length := by
  rw [yStep] at h
  rcases Option.bind_eq_some.mp h with ⟨b, hb, h⟩
  rcases Option.bind_eq_some.mp h with ⟨g, hg, h⟩
  rcases Option.bind_eq_some.mp h with ⟨r, hr, h⟩
  exact setByte_some_length h

theorem uvStep_some_length {bgra : List Nat} {rp w uvo : Nat} {l l' : List Nat}
    {p : Nat × Nat} (h : uvStep bgra rp w uvo l p = some l') :
    l'.length = l.length := by
  rw [uvStep] at h
  rcases Option.bind_eq_some.mp h with ⟨b, hb, h⟩
  rcases Option.bind_eq_some.mp h with ⟨g, hg, h⟩
  rcases Option.bind_eq_some.mp h with ⟨r, hr, h⟩
  rcases Option.bind_eq_some.mp h with ⟨l1, hl1, h⟩
  rw [setByte_some_length h, setByte_some_length hl1]

theorem foldlM_some_length {α : Type} {f : List Nat → α → Option (List Nat)}
    (hf : ∀ (l : List Nat) (a : α) (l' : List Nat),
      f l a = some l' → l'.length = l.length) :
    ∀ (xs : List α) (init out : List Nat),
      List.foldlM f init xs = some out → out.length = init.length := by
  intro xs
  induction xs with
  | nil =>
      intro init out h
      rw [List.foldlM_nil] at h
      cases h
      rfl
  | cons x xs ih =>
      intro init out h
      rw [List.foldlM_cons] at h
      rcases Option.bind_eq_some.mp h with ⟨l1, hl1, h⟩
      rw [ih l1 out h, hf init x l1 hl1]

theorem foldlM_isSome {α : Type} {f : List Nat → α → Option (List Nat)}
    {P : List Nat → Prop} :
    ∀ (xs : List α), (∀ l a, a ∈ xs → P l → ∃ l', f l a = some l' ∧ P l') →
      ∀ init, P init → ∃ out, List.foldlM f init xs = some out ∧ P out := by
  intro xs
  induction xs with
  | nil =>
      intro _ init hinit
      exact ⟨init, by rw [List.foldlM_nil]; rfl, hinit⟩
  | cons x xs ih =>
      intro hstep init hinit
      obtain ⟨l1, hl1, hP1⟩ := hstep init x (List.mem_cons_self x xs) hinit
      obtain ⟨out, hout, hPout⟩ :=
        ih (fun l a ha hP => hstep l a (List.mem_cons_of_mem x ha) hP) l1 hP1
      refine ⟨out, ?_, hPout⟩
      rw [List.foldlM_cons, hl1]
      simpa using hout

theorem mem_pixelIndices {h w : Nat} {p : Nat × Nat}
    (hp : p ∈ pixelIndices h w) : p.1 < h ∧ p.2 < w := by
  rw [pixelIndices, List.mem_flatMap] at hp
  obtain ⟨y, hy, hp⟩ := hp
  rw [List.mem_map] at hp
  obtain ⟨x, hx, rfl⟩ := hp
  exact ⟨List.mem_range.mp hy, List.mem_range.mp hx⟩

theorem mem_uvIndices {h w : Nat} {p : Nat × Nat}
    (hp : p ∈ uvIndices h w) :
    ∃ k j, p.1 = 2 * k ∧ k < (h + 1) / 2 ∧ p.2 = 2 * j ∧ j < (w + 1) / 2 := by
  rw [uvIndices, List.mem_flatMap] at hp
  obtain ⟨y, hy, hp⟩ := hp
  rw [List.mem_map] at hy hp
  obtain ⟨k, hk, rfl⟩ := hy
  obtain ⟨x, hx, rfl⟩ := hp
  rw [List.mem_map] at hx
  obtain ⟨j, hj, rfl⟩ := hx
  exact ⟨k, j, rfl, List.mem_range.mp hk, rfl, List.mem_range.mp hj⟩

theorem bgra_read_bound {y x w h rp : Nat} (hy : y < h) (hx : x < w)
    (hpitch : 4 * w ≤ rp) : y * rp + x * 4 + 2 < rp * h := by
  have h1 : (y + 1) * rp ≤ h * rp := Nat.mul_le_mul_right rp hy
  have h2 : 4 * (x + 1) ≤ 4 * w := Nat.mul_le_mul_left 4 hx
  have h3 : (y + 1) * rp = y * rp + rp := by ring
  have h4 : h * rp = rp * h := Nat.mul_comm h rp
  omega

theorem y_write_bound {y x w h : Nat} (hy : y < h) (hx : x < w) :
    y * w + x < w * h := by
  have h1 : (y + 1) * w ≤ h * w := Nat.mul_le_mul_right w hy
  have h2 : (y + 1) * w = y * w + w := by ring
  have h3 : h * w = w * h := Nat.mul_comm h w
  omega

theorem setByte_eq_some {l : List Nat} {i : Nat} (v : Nat) (h : i < l.length) :
    setByte l i v = some (l.set i v) := by
  rw [setByte, if_pos h]

theorem yStep_isSome {bgra : List Nat} {rp w h : Nat} {l : List Nat}
    {p : Nat × Nat} (hy : p.1 < h) (hx : p.2 < w) (hpitch : 4 * w ≤ rp)
    (hbgra : bgra.length = rp * h) (hl : w * h ≤ l.length) :
    ∃ l', yStep bgra rp w l p = some l' ∧ l'.length = l.length := by
  have hr2 : p.1 * rp + p.2 * 4 + 2 < bgra.length := by
    rw [hbgra]; exact bgra_read_bound hy hx hpitch
  have hwrite : p.1 * w + p.2 < l.length :=
    lt_of_lt_of_le (y_write_bound hy hx) hl
  rw [yStep, getByte_isSome (by omega), Option.some_bind,
    getByte_isSome (by omega), Option.some_bind,
    getByte_isSome (by omega), Option.some_bind,
    setByte_eq_some _ hwrite]
  exact ⟨_, rfl, by simp⟩

theorem uv_write_bound {k j w h : Nat} (hw : w % 2 = 0) (hh : h % 2 = 0)
    (hk : k < (h + 1) / 2) (hj : j < (w + 1) / 2) :
    w * h + (2 * k / 2 * w + 2 * j + 1) < w * h + w * h / 2 := by
  have hk2 : 2 * k / 2 = k := by omega
  rw [hk2]
  have hkb : k + 1 ≤ h / 2 := by omega
  have h1 : (k + 1) * w ≤ h / 2 * w := Nat.mul_le_mul_right w hkb
  have h2 : (k + 1) * w = k * w + w := by ring
  have h3 : 2 * j + 2 ≤ w := by omega
  have h4 : w * h = 2 * (w * (h / 2)) := by
    have : h = 2 * (h / 2) := by omega
    calc w * h = w * (2 * (h / 2)) := by rw [← this]
      _ = 2 * (w * (h / 2)) := by ring
  have h5 : h / 2 * w = w * (h / 2) := Nat.mul_comm _ _
  omega

theorem uvStep_isSome {bgra : List Nat} {rp w h : Nat} {l : List Nat}
    {p : Nat × Nat} (hw : w % 2 = 0) (hh : h % 2 = 0)
    (hp : ∃ k j, p.1 = 2 * k ∧ k < (h + 1) / 2 ∧ p.2 = 2 * j ∧ j < (w + 1) / 2)
    (hpitch : 4 * w ≤ rp) (hbgra : bgra.length = rp * h)
    (hl : l.length = w * h + w * h / 2) :
    ∃ l', uvStep bgra rp w (w * h) l p = some l' ∧ l'.length = l.length := by
  obtain ⟨k, j, hpk, hkb, hjp, hjb⟩ := hp
  have hy : p.1 < h := by omega
  have hx : p.2 < w := by omega
  have hr2 : p.1 * rp + p.2 * 4 + 2 < bgra.length := by
    rw [hbgra]; exact bgra_read_bound hy hx hpitch
  have hwrite : w * h + p.1 / 2 * w + p.2 + 1 < l.length := by
    rw [hl, hpk, hjp]
    have := uv_write_bound hw hh hkb hjb
    omega
  have hwrite0 : w * h + p.1 / 2 * w + p.2 < l.length := by omega
  rw [uvStep, getByte_isSome (by omega), Option.some_bind,
    getByte_isSome (by omega), Option.some_bind,
    getByte_isSome (by omega), Option.some_bind]
  dsimp only
  rw [setByte_eq_some _ hwrite0, Option.some_bind,
    setByte_eq_some _ (by simpa using hwrite)]
  exact ⟨_, rfl, by simp⟩

/-- C8 (amended): for even dimensions, any row pitch of at least `4 * w`
and a source buffer of `row_pitch * h` bytes, the conversion succeeds and
outputs exactly `w * h * 3 / 2` bytes; whenever it succeeds the output
length is `w * h + w * h / 2`, a value independent of the row pitch and
of the input bytes.  For odd dimensions the final UV write lands out of
bounds (an index-out-of-bounds panic in the source), see the
counterexample. -/
theorem bgra_to_nv12_size_law :
    (∀ (w h row_pitch : Nat) (bgra : List Nat),
      w % 2 = 0 → h % 2 = 0 → 4 * w ≤ row_pitch →
      bgra.length = row_pitch * h →
      ∃ out, bgra_to_nv12 w h bgra row_pitch = some out ∧
        out.length = w * h * 3 / 2) ∧
    (∀ (w h row_pitch : Nat) (bgra out : List Nat),
      bgra_to_nv12 w h bgra row_pitch = some out →
      out.length = w * h + w * h / 2) := by
  constructor
  · intro w h rp bgra hw hh hpitch hbgra
    have hY := foldlM_isSome (f := yStep bgra rp w)
      (P := fun l => l.length = w * h + w * h / 2) (pixelIndices h w)
      (fun l p hp hP => by
        obtain ⟨hy, hx⟩ := mem_pixelIndices hp
        have hP' : l.length = w * h + w * h / 2 := hP
        obtain ⟨l', hsome, hlen⟩ :=
          yStep_isSome (l := l) (h := h) hy hx hpitch hbgra (by omega)
        exact ⟨l', hsome, show l'.length = _ by rw [hlen, hP']⟩)
      (List.replicate (w * h + w * h / 2) 0) (by simp)
    obtain ⟨mid, hmid, hmidlen⟩ := hY
    have hUV := foldlM_isSome (f := uvStep bgra rp w (w * h))
      (P := fun l => l.length = w * h + w * h / 2) (uvIndices h w)
      (fun l p hp hP => by
        have hP' : l.length = w * h + w * h / 2 := hP
        obtain ⟨l', hsome, hlen⟩ :=
          uvStep_isSome (l := l) hw hh (mem_uvIndices hp) hpitch hbgra hP'
        exact ⟨l', hsome, show l'.length = _ by rw [hlen, hP']⟩)
      mid hmidlen
    obtain ⟨out, hout, houtlen⟩ := hUV
    refine ⟨out, ?_, ?_⟩
    · rw [bgra_to_nv12, hmid, Option.some_bind]
      exact hout
    · rw [houtlen]
      omega
  · intro w h rp bgra out hsome
    rw [bgra_to_nv12] at hsome
    rcases Option.bind_eq_some.mp hsome with ⟨mid, hmid, hout⟩
    have h1 := foldlM_some_length (fun l a l' => yStep_some_length)
      (pixelIndices h w) (List.replicate (w * h + w * h / 2) 0) mid hmid
    have h2 := foldlM_some_length (fun l a l' => uvStep_some_length)
      (uvIndices h w) mid out hout
    rw [h2, h1]
    simp

/-- Witness for C8 (amended) at a 2x2 frame with pitch 8. -/
theorem bgra_to_nv12_size_law_witness :
    (bgra_to_nv12 2 2 (List.replicate 16 0) 8).map List.length = some 6 := by
  obtain ⟨out, hsome, hlen⟩ :=
    bgra_to_nv12_size_law.1 2 2 8 (List.replicate 16 0)
      (by norm_num) (by norm_num) (by norm_num) (by simp)
  rw [hsome]
  norm_num at hlen
  simp [hlen]

/-- Counterexample for C8 as stated: a 3x2 frame with pitch 12 (which
satisfies `pitch >= 4 * w`) makes the second UV write land at index 9 of
the 9-byte buffer, so the conversion panics instead of producing
`w * h * 3 / 2` bytes. -/
theorem bgra_to_nv12_odd_width_fails :
    bgra_to_nv12 3 2 (List.replicate 24 0) 12 = none ∧
      4 * 3 ≤ 12 ∧ (List.replicate 24 (0 : Nat)).length = 12 * 2 := by
  refine ⟨by decide, by norm_num, by simp⟩

end FramePool

end Broadcaster
